import Mathlib

/-!
Verification development for the photoscaler measurement engine.

The engine's numeric core (tick calibration, homography, local-minima
extraction, drill detection and categorization, base-line handling) is
embedded shallowly over `ℚ`: JavaScript numbers are modelled as exact
rationals and every decimal literal of the source is taken at its exact
decimal value.  Image sampling, OpenCV primitives (Canny, HoughLinesP,
minAreaRect, contour extraction) and the hosted vision API are external
collaborators; the embedding starts from the data those collaborators
hand to the engine, exactly as the source functions receive it.
-/

namespace PhotoScaler

/-- A 2-D point `{x, y}`. -/
structure Pt where
  x : ℚ
  y : ℚ
deriving DecidableEq, Repr

/-- One ruler tick `{px, mm}` as stored on a Ruler object. -/
structure Tick where
  px : ℚ
  mm : ℚ
deriving DecidableEq, Repr

/-- The Ruler record built by `detectTickMarks`, `findRulerCandidate`'s
fallback, `transformRuler` and `buildRulerFromTicks`: the ordered tick
list, the derived px-per-mm scale and the real length in mm.  The `line`
endpoints (pure presentation geometry) are omitted. -/
structure RulerQ where
  ticks : List Tick
  scalePxPerMm : ℚ
  length : ℚ
deriving DecidableEq, Repr

/-- `Math.abs`. -/
def absQ (x : ℚ) : ℚ := if x < 0 then -x else x

/-- `Math.round`: round half toward positive infinity. -/
def roundJS (q : ℚ) : ℤ := ⌊q + 1/2⌋

/-- `[...arr].sort((a, b) => a - b)`: a stable ascending sort, embedded
as insertion sort (JavaScript guarantees a stable comparator sort; only
the resulting order is observable). -/
def sortQ (arr : List ℚ) : List ℚ :=
  arr.insertionSort (· ≤ ·)

/-- `median(arr)` from the source: 0 on empty input, else the middle of
the ascending sort, or the average of the two middles on even length. -/
def median (arr : List ℚ) : ℚ :=
  if arr.length = 0 then 0
  else
    let sorted := sortQ arr
    let mid := sorted.length / 2
    if sorted.length % 2 = 1 then sorted.getD mid 0
    else (sorted.getD (mid - 1) 0 + sorted.getD mid 0) / 2

/-- Consecutive absolute spacings `|ps[i] - ps[i-1]|` of a tick-position
list, as computed by the spacing loop of `detectTickMarks`. -/
def spacings (ps : List ℚ) : List ℚ :=
  (ps.zip ps.tail).map fun pr => absQ (pr.2 - pr.1)

/-- The spacing test of the tick filter in `detectTickMarks`:
`Math.abs(spacing - medianSpacing) / medianSpacing < 0.4` where
`spacing = Math.abs(cur - prev)`. -/
def tickSpacingOK (med prev cur : ℚ) : Bool :=
  decide (absQ (absQ (cur - prev) - med) / med < 2/5)

/-- The tick filter loop of `detectTickMarks`: the first detected tick is
always kept, and tick `i` (for `i ≥ 1`) is kept when the spacing from the
immediately preceding raw tick `i-1` passes `tickSpacingOK`.  (The loop
reads `tickPositions[i - 1]`, not the last element pushed so far.) -/
def filterTicks (med : ℚ) (ps : List ℚ) : List ℚ :=
  match ps with
  | [] => []
  | p :: rest => p :: ((ps.zip rest).filter fun pr => tickSpacingOK med pr.1 pr.2).map (·.2)

/-- The tick-calibration core of `detectTickMarks`, starting from the
tick pixel positions that the external profile sampler and
`findLocalMinima` produced (`tickPositions`): reject when fewer than 3
ticks were found, compute consecutive spacings and their median, filter
the ticks, reject when fewer than 3 survive, assign real values
`0, 10, 20, …` mm by index, and set `scalePxPerMm = medianSpacing / 10`.
The stored `px` of each tick is the tick's absolute position along the
image axis, exactly as in the source. -/
def detectTickMarksCore (tickPositions : List ℚ) : Option RulerQ :=
  if tickPositions.length < 3 then none
  else
    let medianSpacing := median (spacings tickPositions)
    let filteredTicks := filterTicks medianSpacing tickPositions
    if filteredTicks.length < 3 then none
    else
      let ticks := filteredTicks.enum.map fun iv => Tick.mk iv.2 ((iv.1 : ℚ) * 10)
      some { ticks := ticks
             scalePxPerMm := medianSpacing / 10
             length := ((ticks.getLast?).getD (Tick.mk 0 0)).mm }

/-- The two-point fallback ruler of `findRulerCandidate`: endpoints of the
longest line, ticks `{0,0}` and `{lengthPx, 400}`, scale
`lengthPx / 400` (40 cm assumed default length). -/
def fallbackRuler (lengthPx : ℚ) : RulerQ :=
  { ticks := [Tick.mk 0 0, Tick.mk lengthPx 400]
    scalePxPerMm := lengthPx / 400
    length := 400 }

/-- One externally observed ruler tick `{cm, pixelY}` of the vision
payload (`ruler.ticks[]` in `geminiJig.js`). -/
structure CmTick where
  cm : ℚ
  pixelY : ℚ
deriving DecidableEq, Repr

/-- Comparator of `ruler.ticks.sort((a, b) => a.cm - b.cm)`. -/
def cmLE (t u : CmTick) : Prop := t.cm ≤ u.cm

instance : DecidableRel cmLE := fun t u => inferInstanceAs (Decidable (t.cm ≤ u.cm))

/-- `buildRulerFromTicks` from `geminiJig.js`: sort the observed ticks by
cm value, require at least two, fit pixelY against mm by least squares
(slope `dpx/dmm`, intercept the pixel of 0 cm), and store each tick as
`{px: |pixelY - refPixelY|, mm: cm * 10}` with `scalePxPerMm = |slope|`.
The `line`/`refPixelY` presentation fields are omitted. -/
def buildRulerFromTicks (rulerTicks : List CmTick) : Option RulerQ :=
  let ticks := rulerTicks.insertionSort cmLE
  if ticks.length < 2 then none
  else
    let n : ℚ := ticks.length
    let sumMm : ℚ := (ticks.map fun t => t.cm * 10).sum
    let sumPx : ℚ := (ticks.map fun t => t.pixelY).sum
    let sumMmPx : ℚ := (ticks.map fun t => t.cm * 10 * t.pixelY).sum
    let sumMm2 : ℚ := (ticks.map fun t => t.cm * 10 * (t.cm * 10)).sum
    let slope := (n * sumMmPx - sumMm * sumPx) / (n * sumMm2 - sumMm * sumMm)
    let scalePxPerMm := absQ slope
    let intercept := (sumPx - slope * sumMm) / n
    let ticksOut := ticks.map fun t => Tick.mk (absQ (t.pixelY - intercept)) (t.cm * 10)
    let firstTick := (ticks.head?).getD (CmTick.mk 0 0)
    let lastTick := (ticks.getLast?).getD (CmTick.mk 0 0)
    some { ticks := ticksOut
           scalePxPerMm := scalePxPerMm
           length := lastTick.cm * 10 - firstTick.cm * 10 }

/-- The least-squares denominator `n·Σmm² - (Σmm)²` of
`buildRulerFromTicks`, over the raw (unsorted) tick list; it is
invariant under the sort. -/
def regressionDenom (rulerTicks : List CmTick) : ℚ :=
  (rulerTicks.length : ℚ) * (rulerTicks.map fun t => t.cm * 10 * (t.cm * 10)).sum -
    (rulerTicks.map fun t => t.cm * 10).sum * (rulerTicks.map fun t => t.cm * 10).sum

/-- `transformRuler` from `geminiJig.js` (old-schema payload): synthetic
ticks every 10 mm along the ruler.  `distPx` stands for the externally
computed endpoint distance `Math.sqrt(dx*dx + dy*dy)` and `lengthCm` for
`raw.lengthCm || 40`. -/
def transformRuler (distPx lengthCm : ℚ) : RulerQ :=
  let lengthMm := lengthCm * 10
  let numTicks := (roundJS lengthCm).toNat + 1
  let ticks := (List.range numTicks).map fun i =>
    Tick.mk ((i : ℚ) * 10 / lengthMm * distPx) ((i : ℚ) * 10)
  { ticks := ticks
    scalePxPerMm := distPx / lengthMm
    length := lengthMm }

/-- The three height categories. -/
inductive Category where
  | A
  | B
  | C
deriving DecidableEq, Repr

/-- The categorization ternary used identically in `detectDrillsJig` and
`parseGeminiResponse`:
`heightMm < shortMax ? 'A' : heightMm < mediumMax ? 'B' : 'C'`. -/
def categorize (shortMax mediumMax heightMm : ℚ) : Category :=
  if heightMm < shortMax then Category.A
  else if heightMm < mediumMax then Category.B
  else Category.C

/-- Modelled from the spec (section 4.6) and from the formula embedded in
`buildPrompt` of `geminiJig.js` (step 4c of the prompt): the
perspective-corrected height
`corrected_height_mm = (raw_height_px / ruler_scalePxPerMm) / (1 + depthRatio × (perspectiveRatio - 1))`.
The arithmetic itself is carried out by the external vision model; no
other executable implementation exists in the repository. -/
def correctedHeightMm (scalePxPerMm perspectiveRatio depthRatio heightPx : ℚ) : ℚ :=
  heightPx / scalePxPerMm / (1 + depthRatio * (perspectiveRatio - 1))

/-- Modelled from the spec: the raw (uncorrected) height in mm,
`raw_height_px / ruler_scalePxPerMm`. -/
def rawHeightMm (scalePxPerMm heightPx : ℚ) : ℚ :=
  heightPx / scalePxPerMm

/-- The left peak of `findLocalMinima`: `leftMax` is initialized to
`values[i]` and folded with `Math.max` over `j` from
`Math.max(0, i - minDistance)` to `i - 1`. -/
def leftWindowMax (values : List ℚ) (minDistance i : ℕ) : ℚ :=
  (List.range' (i - minDistance) (min minDistance i)).foldl
    (fun m j => max m (values.getD j 0)) (values.getD i 0)

/-- The right peak of `findLocalMinima`: `rightMax` folded with
`Math.max` over `j` from `i + 1` to `Math.min(values.length - 1, i + minDistance)`. -/
def rightWindowMax (values : List ℚ) (minDistance i : ℕ) : ℚ :=
  (List.range' (i + 1) (min (values.length - 1 - i) minDistance)).foldl
    (fun m j => max m (values.getD j 0)) (values.getD i 0)

/-- The prominence computed by `findLocalMinima`:
`Math.min(leftMax - values[i], rightMax - values[i])`. -/
def prominenceAt (values : List ℚ) (minDistance i : ℕ) : ℚ :=
  min (leftWindowMax values minDistance i - values.getD i 0)
    (rightWindowMax values minDistance i - values.getD i 0)

/-- One iteration of the `findLocalMinima` loop at index `i`: accept `i`
when it is a strict local minimum, its prominence reaches
`minProminence`, and it lies at least `minDistance` after the last
accepted minimum. -/
def lmStep (values : List ℚ) (minDistance : ℕ) (minProminence : ℚ)
    (minima : List ℕ) (i : ℕ) : List ℕ :=
  if values.getD i 0 < values.getD (i - 1) 0 ∧ values.getD i 0 < values.getD (i + 1) 0 then
    if minProminence ≤ prominenceAt values minDistance i then
      match minima.getLast? with
      | none => minima ++ [i]
      | some last => if minDistance ≤ i - last then minima ++ [i] else minima
    else minima
  else minima

/-- `findLocalMinima(values, minDistance, minProminence)`: the loop runs
`i` from `1` to `values.length - 2` and pushes accepted indices in
order. -/
def findLocalMinima (values : List ℚ) (minDistance : ℕ) (minProminence : ℚ) : List ℕ :=
  (List.range' 1 (values.length - 2)).foldl (lmStep values minDistance minProminence) []

/-- Entry `M[i][j]` of a row-major rational matrix. -/
def entry (M : List (List ℚ)) (i j : ℕ) : ℚ := (M.getD i []).getD j 0

/-- The partial-pivot search of `solveLinearSystem`: scan `j` from
`i + 1` to `n - 1`, replacing the candidate whenever
`|M[j][i]| > |M[pivot][i]|` (so the first row of maximal magnitude
wins). -/
def pivotRowFor (M : List (List ℚ)) (n i : ℕ) : ℕ :=
  (List.range' (i + 1) (n - (i + 1))).foldl
    (fun best j => if absQ (entry M best i) < absQ (entry M j i) then j else best) i

/-- Map with the element index, starting at `k` (structural helper for
the row operations below). -/
def mapIdxFrom (f : ℕ → List ℚ → List ℚ) : ℕ → List (List ℚ) → List (List ℚ)
  | _, [] => []
  | k, row :: rows => f k row :: mapIdxFrom f (k + 1) rows

/-- Swap rows `i` and `p` of `M`. -/
def swapRows (M : List (List ℚ)) (i p : ℕ) : List (List ℚ) :=
  mapIdxFrom (fun k row => if k = i then M.getD p [] else if k = p then M.getD i [] else row) 0 M

/-- Step `i` of the Gauss-Jordan elimination in `solveLinearSystem`:
partial pivot, reject a pivot of magnitude `< 1e-12`, divide the pivot
row, and subtract `M[k][i] ×` the pivot row from every other row `k`.
The source applies the division and subtraction only from column `i`
onward; in exact arithmetic the earlier columns of the pivot row are
already `0` at that point (each earlier step zeroed its column in all
other rows and later steps never touch earlier columns), so whole-row
operations produce the identical matrix. -/
def elimStep (n : ℕ) (M : List (List ℚ)) (i : ℕ) : Option (List (List ℚ)) :=
  let p := pivotRowFor M n i
  let M1 := swapRows M i p
  let piv := entry M1 i i
  if absQ piv < 1 / 10 ^ 12 then none
  else
    let rowI := (M1.getD i []).map (fun a => a / piv)
    some (mapIdxFrom (fun k row =>
      if k = i then rowI
      else row.zipWith (fun a b => a - row.getD i 0 * b) rowI) 0 M1)

/-- The elimination loop of `solveLinearSystem`: steps `i = 0, …, n - 1`
(`fuel` counts the remaining steps), aborting on a rejected pivot. -/
def elimFrom (n : ℕ) : ℕ → ℕ → List (List ℚ) → Option (List (List ℚ))
  | _, 0, M => some M
  | i, fuel + 1, M =>
    match elimStep n M i with
    | none => none
    | some M2 => elimFrom n (i + 1) fuel M2

/-- `solveLinearSystem(A, b)`: Gauss-Jordan elimination with partial
pivoting on the augmented matrix `[A | b]`; returns the solution column
or `null` on a pivot of magnitude `< 1e-12`. -/
def solveLinearSystem (A : List (List ℚ)) (b : List ℚ) : Option (List ℚ) :=
  let n := A.length
  let M := (A.zip b).map fun rb => rb.1 ++ [rb.2]
  match elimFrom n 0 n M with
  | none => none
  | some M2 => some (M2.map fun row => row.getD n 0)

/-- A 3×3 homography matrix `[[m00, m01, m02], [m10, m11, m12], [m20, m21, m22]]`. -/
structure H3 where
  m00 : ℚ
  m01 : ℚ
  m02 : ℚ
  m10 : ℚ
  m11 : ℚ
  m12 : ℚ
  m20 : ℚ
  m21 : ℚ
  m22 : ℚ
deriving DecidableEq, Repr

/-- `computeHomography(srcPoints, dstPoints)`: 8 linear equations (two
per correspondence) for `h0..h7` with `h8 ≡ 1`, solved by
`solveLinearSystem`; `null` on wrong arity or a rejected pivot. -/
def computeHomography (srcPoints dstPoints : List Pt) : Option H3 :=
  if srcPoints.length = 4 ∧ dstPoints.length = 4 then
    let A := ((srcPoints.zip dstPoints).map fun sd =>
      [[sd.1.x, sd.1.y, 1, 0, 0, 0, -sd.1.x * sd.2.x, -sd.1.y * sd.2.x],
       [0, 0, 0, sd.1.x, sd.1.y, 1, -sd.1.x * sd.2.y, -sd.1.y * sd.2.y]]).flatten
    let b := ((srcPoints.zip dstPoints).map fun sd => [sd.2.x, sd.2.y]).flatten
    match solveLinearSystem A b with
    | none => none
    | some h =>
      some ⟨h.getD 0 0, h.getD 1 0, h.getD 2 0,
            h.getD 3 0, h.getD 4 0, h.getD 5 0,
            h.getD 6 0, h.getD 7 0, 1⟩
  else none

/-- `applyHomography(H, p)`: projective application with division by
`rho = m20·x + m21·y + m22`. -/
def applyHomography (H : H3) (p : Pt) : Pt :=
  let rho := H.m20 * p.x + H.m21 * p.y + H.m22
  { x := (H.m00 * p.x + H.m01 * p.y + H.m02) / rho
    y := (H.m10 * p.x + H.m11 * p.y + H.m12) / rho }

/-- The projective denominator of `applyHomography`. -/
def rhoOf (H : H3) (p : Pt) : ℚ := H.m20 * p.x + H.m21 * p.y + H.m22

/-- The 3×3 determinant expansion used by `applyInverseHomography`. -/
def detH (H : H3) : ℚ :=
  H.m00 * (H.m11 * H.m22 - H.m12 * H.m21) -
    H.m01 * (H.m10 * H.m22 - H.m12 * H.m20) +
    H.m02 * (H.m10 * H.m21 - H.m11 * H.m20)

/-- The explicit adjugate-over-determinant inverse matrix built by
`applyInverseHomography`. -/
def invH3 (H : H3) (det : ℚ) : H3 :=
  ⟨(H.m11 * H.m22 - H.m12 * H.m21) / det, (H.m02 * H.m21 - H.m01 * H.m22) / det,
    (H.m01 * H.m12 - H.m02 * H.m11) / det,
    (H.m12 * H.m20 - H.m10 * H.m22) / det, (H.m00 * H.m22 - H.m02 * H.m20) / det,
    (H.m02 * H.m10 - H.m00 * H.m12) / det,
    (H.m10 * H.m21 - H.m11 * H.m20) / det, (H.m01 * H.m20 - H.m00 * H.m21) / det,
    (H.m00 * H.m11 - H.m01 * H.m10) / det⟩

/-- `applyInverseHomography(H, p)`: `null` when `|det| < 1e-12`, else the
adjugate inverse applied to `p`. -/
def applyInverseHomography (H : H3) (p : Pt) : Option Pt :=
  let det := detH H
  if absQ det < 1 / 10 ^ 12 then none
  else some (applyHomography (invH3 H det) p)

/-- The oriented rectangle `cv.minAreaRect` returns (external input to
the drill-detection loop). -/
structure RectQ where
  center : Pt
  sizeW : ℚ
  sizeH : ℚ
  angle : ℚ
deriving DecidableEq, Repr

/-- One contour of a drill-detection pass as the loop body reads it:
`cv.contourArea`, the `minAreaRect` result and its four corner
vertices (all produced by external OpenCV primitives). -/
structure ContourData where
  area : ℚ
  rect : RectQ
  vertices : List Pt
deriving DecidableEq, Repr

/-- The tunable detection parameters `jigDetectionParams` used by
`detectDrillsJig`. -/
structure JigParams where
  minContourArea : ℚ
  minAspectRatio : ℚ
  baseLineTolerance : ℚ
deriving DecidableEq, Repr

/-- A detected drill object as built by `detectDrillsJig` (with
`rect := some _`) or `parseGeminiResponse` (with `rect := none`). -/
structure DrillObj where
  id : ℕ
  rect : Option RectQ
  vertices : List Pt
  topY : ℚ
  bottomY : ℚ
  centerX : ℚ
  heightPx : ℚ
  heightMm : ℚ
  category : Category
deriving DecidableEq, Repr

/-- `Math.max(...)` over a list (never used on an empty list). -/
def maxListQ : List ℚ → ℚ
  | [] => 0
  | x :: xs => xs.foldl max x

/-- `Math.min(...)` over a list (never used on an empty list). -/
def minListQ : List ℚ → ℚ
  | [] => 0
  | x :: xs => xs.foldl min x

/-- The body of the contour loop of `detectDrillsJig`: area filter,
aspect-ratio filter, base-line proximity filter, height computation
against the base line and the y-ruler scale, minimum-height filter, and
object construction (ids are assigned later). -/
def processContour (params : JigParams) (baseLineY scalePxPerMm shortMax mediumMax : ℚ)
    (c : ContourData) : Option DrillObj :=
  if c.area < params.minContourArea then none
  else
    let w := min c.rect.sizeW c.rect.sizeH
    let h := max c.rect.sizeW c.rect.sizeH
    if h / w < params.minAspectRatio then none
    else
      let bottomY := maxListQ (c.vertices.map Pt.y)
      let topY := minListQ (c.vertices.map Pt.y)
      if params.baseLineTolerance < absQ (bottomY - baseLineY) then none
      else
        let heightPx := baseLineY - topY
        let heightMm := heightPx / scalePxPerMm
        if heightMm < 10 then none
        else
          some { id := 0
                 rect := some c.rect
                 vertices := c.vertices
                 topY := topY
                 bottomY := bottomY
                 centerX := c.rect.center.x
                 heightPx := heightPx
                 heightMm := heightMm
                 category := categorize shortMax mediumMax heightMm }

/-- Comparator of `drills.sort((a, b) => a.centerX - b.centerX)`. -/
def centerLE (a b : DrillObj) : Prop := a.centerX ≤ b.centerX

instance : DecidableRel centerLE := fun a b => inferInstanceAs (Decidable (a.centerX ≤ b.centerX))

/-- `drills.forEach((d, idx) => d.id = idx + 1)` starting at `k`. -/
def assignIds : ℕ → List DrillObj → List DrillObj
  | _, [] => []
  | k, d :: ds => { d with id := k } :: assignIds (k + 1) ds

/-- `detectDrillsJig` from the point where the external OpenCV pipeline
has produced the contour list: filter and measure each contour, sort the
survivors left to right by `centerX` (JavaScript sorts stably; insertion
sort with `≤` realizes the same order) and assign sequential 1-based
ids. -/
def detectDrillsCore (params : JigParams) (baseLineY scalePxPerMm shortMax mediumMax : ℚ)
    (contours : List ContourData) : List DrillObj :=
  assignIds 1
    ((contours.filterMap (processContour params baseLineY scalePxPerMm shortMax mediumMax)).insertionSort centerLE)

/-- One raw per-drill observation of the external vision payload
(`data.drills[]` in `parseGeminiResponse`); absent JSON fields are
`none`. -/
structure RawDrill where
  centerX : ℚ
  topY : ℚ
  widthPx : Option ℚ
  bottomY : Option ℚ
  heightMm : Option ℚ
deriving DecidableEq, Repr

/-- JavaScript `v || dflt` on an optional number: the default replaces
both an absent value and `0` (which is falsy). -/
def jsOr (v : Option ℚ) (dflt : ℚ) : ℚ :=
  match v with
  | none => dflt
  | some x => if x = 0 then dflt else x

/-- Comparator of `data.drills.sort((a, b) => a.centerX - b.centerX)`. -/
def rawLE (a b : RawDrill) : Prop := a.centerX ≤ b.centerX

instance : DecidableRel rawLE := fun a b => inferInstanceAs (Decidable (a.centerX ≤ b.centerX))

/-- The per-drill object constructor of `parseGeminiResponse`:
`halfW = (d.widthPx || 20) / 2`, `heightMm = d.heightMm || 0`, category
by thresholds, `bottomY = d.bottomY != null ? d.bottomY : (data.baseLineY || 0)`,
axis-aligned vertices, `heightPx = bottomY - topY` (ids assigned by
position afterwards). -/
def mkGeminiObj (shortMax mediumMax : ℚ) (baseLineY : Option ℚ) (d : RawDrill) : DrillObj :=
  let halfW := jsOr d.widthPx 20 / 2
  let heightMm := jsOr d.heightMm 0
  let bottomY := d.bottomY.getD (jsOr baseLineY 0)
  { id := 0
    rect := none
    vertices := [{ x := d.centerX - halfW, y := d.topY },
                 { x := d.centerX + halfW, y := d.topY },
                 { x := d.centerX + halfW, y := bottomY },
                 { x := d.centerX - halfW, y := bottomY }]
    topY := d.topY
    bottomY := bottomY
    centerX := d.centerX
    heightPx := bottomY - d.topY
    heightMm := heightMm
    category := categorize shortMax mediumMax heightMm }

/-- The drill-ingestion path of `parseGeminiResponse`: sort the raw
payload entries by `centerX`, build each object, and assign sequential
1-based ids in that order. -/
def parseDrills (shortMax mediumMax : ℚ) (baseLineY : Option ℚ)
    (drills : List RawDrill) : List DrillObj :=
  assignIds 1 ((drills.insertionSort rawLE).map (mkGeminiObj shortMax mediumMax baseLineY))

/-- The base-line drag-end recomputation in `endDrawing`: every detected
drill keeps all its fields except `heightPx`, `heightMm` and `category`,
which are recomputed from the new base-line position and the y-ruler
scale. -/
def recomputeDrills (baseLineY scalePxPerMm shortMax mediumMax : ℚ)
    (drills : List DrillObj) : List DrillObj :=
  drills.map fun drill =>
    let heightPx := baseLineY - drill.topY
    let heightMm := heightPx / scalePxPerMm
    { drill with
      heightPx := heightPx
      heightMm := heightMm
      category := categorize shortMax mediumMax heightMm }

/-- A raw Hough line segment, in coordinates of the lower-image region
of interest that `detectBaseLine` scans. -/
structure Line4 where
  x1 : ℚ
  y1 : ℚ
  x2 : ℚ
  y2 : ℚ
deriving DecidableEq, Repr

/-- The base line `{y, mmValue}`. -/
structure BaseLineQ where
  y : ℤ
  mmValue : ℚ
deriving DecidableEq, Repr

/-- Exact rational characterization of the source test
`Math.abs(Math.atan2(dy, dx)) * (180 / Math.PI) < 15`: for `dx > 0` the
angle is `arctan(dy/dx)`, and `|dy/dx| < tan 15° = 2 - √3` squares to
`0 < 2·dx - |dy|` and `3·dx² < (2·dx - |dy|)²`; for `dx ≤ 0` (other than
the zero vector, where `atan2` is `0`) the absolute angle is at least
90°. -/
def angleLt15 (dx dy : ℚ) : Bool :=
  decide ((0 < dx ∧ 0 < 2 * dx - absQ dy ∧ 3 * dx ^ 2 < (2 * dx - absQ dy) ^ 2) ∨
    (dx = 0 ∧ dy = 0))

/-- The base-line candidate filter of `detectBaseLine`:
`angle < 15 && length > src.cols * 0.15`, with the length test written
on squares (`Math.hypot(dx, dy) > 0.15·cols` for a nonnegative image
width `cols`). -/
def baseLineCandidate (cols : ℚ) (l : Line4) : Bool :=
  angleLt15 (l.x2 - l.x1) (l.y2 - l.y1) &&
    decide ((3 / 20 * cols) ^ 2 < (l.x2 - l.x1) ^ 2 + (l.y2 - l.y1) ^ 2)

/-- `detectBaseLine` from the point where the external Hough transform
has produced the line list for the lower 60% region (`roiY =
Math.floor(rows * 0.4)`): track the smallest `avgY = (y1 + y2)/2 + roiY`
over qualifying lines; on success set `y = Math.round(bestY)` with
`mmValue` read off the y-ruler when it has at least two ticks, and
otherwise fall back to `y = Math.round(rows * 0.75)` with `mmValue 0`.
`baseLineTrack` is the body of the tracking loop (`if (avgY < bestY) bestY = avgY`,
starting from `Infinity`, embedded as an `Option` accumulator). -/
def baseLineTrack (cols : ℚ) (roiY : ℤ) (best : Option ℚ) (l : Line4) : Option ℚ :=
  if baseLineCandidate cols l then
    let avgY := (l.y1 + l.y2) / 2 + (roiY : ℚ)
    match best with
    | none => some avgY
    | some b => if avgY < b then some avgY else best
  else best

def detectBaseLineCore (rows cols : ℕ) (lines : List Line4) (yRuler : Option RulerQ) :
    BaseLineQ :=
  let roiY : ℤ := ⌊(rows : ℚ) * 2 / 5⌋
  let bestY : Option ℚ := lines.foldl (baseLineTrack (cols : ℚ) roiY) none
  match bestY with
  | some b =>
    let baseY := roundJS b
    let mmValue :=
      match yRuler with
      | some r =>
        if 2 ≤ r.ticks.length then
          ((baseY : ℚ) - ((r.ticks.head?).getD (Tick.mk 0 0)).px) / r.scalePxPerMm
        else 0
      | none => 0
    { y := baseY, mmValue := mmValue }
  | none => { y := roundJS ((rows : ℚ) * 3 / 4), mmValue := 0 }

/-- `absQ` agrees with Mathlib's absolute value. -/
theorem absQ_eq_abs (x : ℚ) : absQ x = |x| := by
  unfold absQ
  rcases lt_or_le x 0 with h | h
  · rw [if_pos h, abs_of_neg h]
  · rw [if_neg (not_lt.mpr h), abs_of_nonneg h]

/-- C3: categorization uses half-open bins — for thresholds with
`shortMax < mediumMax` the category is `A` iff `heightMm < shortMax`,
`B` iff `shortMax ≤ heightMm < mediumMax` and `C` iff
`mediumMax ≤ heightMm` (a value exactly at a threshold falls in the
next bin), and with `shortMax = 200`, `mediumMax = 300` the concrete
boundary cases are `199 → A`, `200 → B`, `299.9 → B`, `300 → C`,
`301 → C`. -/
theorem categorize_halfOpen_bins (shortMax mediumMax heightMm : ℚ)
    (hlt : shortMax < mediumMax) :
    (categorize shortMax mediumMax heightMm = Category.A ↔ heightMm < shortMax) ∧
    (categorize shortMax mediumMax heightMm = Category.B ↔
      shortMax ≤ heightMm ∧ heightMm < mediumMax) ∧
    (categorize shortMax mediumMax heightMm = Category.C ↔ mediumMax ≤ heightMm) ∧
    categorize 200 300 199 = Category.A ∧
    categorize 200 300 200 = Category.B ∧
    categorize 200 300 (2999/10) = Category.B ∧
    categorize 200 300 300 = Category.C ∧
    categorize 200 300 301 = Category.C := by
  unfold categorize
  refine ⟨?_, ?_, ?_, ?_, ?_, ?_, ?_, ?_⟩
  · split_ifs with h1 h2
    · exact iff_of_true rfl h1
    · exact iff_of_false (by simp) h1
    · exact iff_of_false (by simp) h1
  · split_ifs with h1 h2
    · exact iff_of_false (by simp) fun hh => absurd hh.1 (not_le.mpr h1)
    · exact iff_of_true rfl ⟨le_of_not_lt h1, h2⟩
    · exact iff_of_false (by simp) fun hh => absurd hh.2 h2
  · split_ifs with h1 h2
    · exact iff_of_false (by simp) fun hh =>
        absurd hlt (not_lt.mpr (le_trans hh (le_of_lt h1)))
    · exact iff_of_false (by simp) (not_le.mpr h2)
    · exact iff_of_true rfl (le_of_not_lt h2)
  · norm_num
  · norm_num
  · norm_num
  · norm_num
  · norm_num

/-- Witness for `categorize_halfOpen_bins` at `shortMax = 200`,
`mediumMax = 300`, `heightMm = 250`. -/
theorem categorize_halfOpen_bins_witness :
    categorize 200 300 250 = Category.B ↔ (200 : ℚ) ≤ 250 ∧ (250 : ℚ) < 300 :=
  (categorize_halfOpen_bins 200 300 250 (by norm_num)).2.1

/-- C4: the perspective-corrected height satisfies
`correctedMm = (heightPx / s) / (1 + depthRatio·(perspectiveRatio − 1))`
(equivalently, multiplying back by the interpolated magnification and the
scale recovers `heightPx`), and in particular `perspectiveRatio = 1.5`,
`depthRatio = 1.0`, `s = 2.0 px/mm`, `heightPx = 600` gives
`rawMm = 300` and `correctedMm = 200`. -/
theorem correctedHeightMm_spec (s pr dr hpx : ℚ) (hs : s ≠ 0)
    (hf : 1 + dr * (pr - 1) ≠ 0) :
    correctedHeightMm s pr dr hpx = rawHeightMm s hpx / (1 + dr * (pr - 1)) ∧
    correctedHeightMm s pr dr hpx * (1 + dr * (pr - 1)) * s = hpx ∧
    rawHeightMm 2 600 = 300 ∧
    correctedHeightMm 2 (3/2) 1 600 = 200 := by
  refine ⟨rfl, ?_, by norm_num [rawHeightMm], by norm_num [correctedHeightMm]⟩
  unfold correctedHeightMm
  field_simp
  ring

/-- Witness for `correctedHeightMm_spec` at the spec's concrete
instance. -/
theorem correctedHeightMm_spec_witness :
    correctedHeightMm 2 (3/2) 1 600 * (1 + 1 * (3/2 - 1)) * 2 = 600 :=
  (correctedHeightMm_spec 2 (3/2) 1 600 (by norm_num) (by norm_num)).2.1

/-- C9: recomputing from a new base-line position maps every detected
object to one with the same `id`, `rect`, `vertices`, `topY`, `bottomY`
and `centerX`, the same count, and `heightPx`, `heightMm`, `category`
recomputed from the new base line and the active y-ruler scale. -/
theorem recomputeDrills_spec (baseLineY scalePxPerMm shortMax mediumMax : ℚ)
    (drills : List DrillObj) :
    (recomputeDrills baseLineY scalePxPerMm shortMax mediumMax drills).length = drills.length ∧
    (recomputeDrills baseLineY scalePxPerMm shortMax mediumMax drills).map (·.id) =
      drills.map (·.id) ∧
    (recomputeDrills baseLineY scalePxPerMm shortMax mediumMax drills).map (·.rect) =
      drills.map (·.rect) ∧
    (recomputeDrills baseLineY scalePxPerMm shortMax mediumMax drills).map (·.vertices) =
      drills.map (·.vertices) ∧
    (recomputeDrills baseLineY scalePxPerMm shortMax mediumMax drills).map (·.topY) =
      drills.map (·.topY) ∧
    (recomputeDrills baseLineY scalePxPerMm shortMax mediumMax drills).map (·.bottomY) =
      drills.map (·.bottomY) ∧
    (recomputeDrills baseLineY scalePxPerMm shortMax mediumMax drills).map (·.centerX) =
      drills.map (·.centerX) ∧
    (recomputeDrills baseLineY scalePxPerMm shortMax mediumMax drills).map (·.heightPx) =
      drills.map (fun d => baseLineY - d.topY) ∧
    (recomputeDrills baseLineY scalePxPerMm shortMax mediumMax drills).map (·.heightMm) =
      drills.map (fun d => (baseLineY - d.topY) / scalePxPerMm) ∧
    (recomputeDrills baseLineY scalePxPerMm shortMax mediumMax drills).map (·.category) =
      drills.map (fun d =>
        categorize shortMax mediumMax ((baseLineY - d.topY) / scalePxPerMm)) := by
  unfold recomputeDrills
  refine ⟨by simp, ?_, ?_, ?_, ?_, ?_, ?_, ?_, ?_, ?_⟩ <;> rw [List.map_map] <;> rfl

/-- All-lines-rejected invariance of the base-line tracking fold. -/
theorem baseLineTrack_foldl_none (cols : ℚ) (roiY : ℤ) (lines : List Line4)
    (h : ∀ l ∈ lines, baseLineCandidate cols l = false) :
    lines.foldl (baseLineTrack cols roiY) none = none := by
  induction lines with
  | nil => rfl
  | cons l ls ih =>
    have hl : baseLineCandidate cols l = false := h l (List.mem_cons_self l ls)
    have hstep : baseLineTrack cols roiY none l = none := by
      unfold baseLineTrack
      rw [hl]
      rfl
    rw [List.foldl_cons, hstep]
    exact ih fun x hx => h x (List.mem_cons_of_mem l hx)

/-- C10: when no Hough line in the scanned lower region qualifies as a
base-line candidate (near-horizontal and longer than 15% of the image
width), `detectBaseLine` does not fail: it always sets the fallback base
line at `y = Math.round(0.75 × rows)` with `mmValue 0`. -/
theorem detectBaseLine_fallback (rows cols : ℕ) (lines : List Line4)
    (yRuler : Option RulerQ)
    (h : ∀ l ∈ lines, baseLineCandidate (cols : ℚ) l = false) :
    detectBaseLineCore rows cols lines yRuler =
      { y := roundJS ((rows : ℚ) * 3 / 4), mmValue := 0 } := by
  unfold detectBaseLineCore
  simp only []
  rw [baseLineTrack_foldl_none (cols : ℚ) ⌊(rows : ℚ) * 2 / 5⌋ lines h]

/-- Witness for `detectBaseLine_fallback`: a 1000×800 image with a single
short diagonal segment falls back to `y = 750`. -/
theorem detectBaseLine_fallback_witness :
    detectBaseLineCore 1000 800 [Line4.mk 0 0 30 30] none =
      { y := 750, mmValue := 0 } := by
  have h := detectBaseLine_fallback 1000 800 [Line4.mk 0 0 30 30] none
    (by
      intro l hl
      simp only [List.mem_singleton] at hl
      subst hl
      norm_num [baseLineCandidate, angleLt15, absQ])
  rw [h]
  norm_num [roundJS]

/-- Membership characterization of the tick filter: for strictly
increasing tick positions, a non-initial tick survives exactly when the
spacing from its raw predecessor passes the 40% test. -/
theorem filterTicks_mem_iff (med : ℚ) (ps : List ℚ) (hps : List.Chain' (· < ·) ps)
    (i : ℕ) (hi : i + 1 < ps.length) :
    ps.get ⟨i + 1, hi⟩ ∈ filterTicks med ps ↔
      tickSpacingOK med (ps.get ⟨i, Nat.lt_of_succ_lt hi⟩) (ps.get ⟨i + 1, hi⟩) = true := by
  cases ps with
  | nil => simp at hi
  | cons p rest =>
    have hpw : List.Pairwise (· < ·) (p :: rest) := List.chain'_iff_pairwise.mp hps
    have hall : ∀ y ∈ rest, p < y := (List.pairwise_cons.mp hpw).1
    have hnd : rest.Nodup := ((List.pairwise_cons.mp hpw).2).imp ne_of_lt
    have hilt : i < rest.length := by
      simp only [List.length_cons] at hi
      omega
    have hget : (p :: rest).get ⟨i + 1, hi⟩ = rest.get ⟨i, hilt⟩ := rfl
    have hne : rest.get ⟨i, hilt⟩ ≠ p :=
      ne_of_gt (hall _ (List.get_mem rest i hilt))
    have hzlen : ((p :: rest).zip rest).length = rest.length := by
      simp [List.length_zip]
    have hizlt : i < ((p :: rest).zip rest).length := by
      rw [hzlen]
      exact hilt
    have hfl : filterTicks med (p :: rest) =
        p :: (((p :: rest).zip rest).filter fun pr => tickSpacingOK med pr.1 pr.2).map
          (fun pr => pr.2) := rfl
    rw [hfl, hget, List.mem_cons]
    constructor
    · rintro (heq | hmem)
      · exact absurd heq hne
      · obtain ⟨pr, hpr, hsnd⟩ := List.mem_map.mp hmem
        obtain ⟨hprz, hok⟩ := List.mem_filter.mp hpr
        obtain ⟨⟨j, hj⟩, hjget⟩ := List.mem_iff_get.mp hprz
        have hjr : j < rest.length := by
          rw [hzlen] at hj
          exact hj
        have hjc : j < (p :: rest).length := by
          simp only [List.length_cons]
          omega
        have hzget : ((p :: rest).zip rest).get ⟨j, hj⟩ =
            ((p :: rest).get ⟨j, hjc⟩, rest.get ⟨j, hjr⟩) := by
          simp [List.get_eq_getElem, List.getElem_zip]
        have hpr_eq : pr = ((p :: rest).get ⟨j, hjc⟩, rest.get ⟨j, hjr⟩) := by
          rw [← hjget, hzget]
        have hji : rest.get ⟨j, hjr⟩ = rest.get ⟨i, hilt⟩ := by
          rw [hpr_eq] at hsnd
          exact hsnd
        have hj_eq : j = i := Fin.mk_eq_mk.mp (hnd.get_inj_iff.mp hji)
        subst hj_eq
        rw [hpr_eq] at hok
        exact hok
    · intro hok
      right
      have hzget : ((p :: rest).zip rest).get ⟨i, hizlt⟩ =
          ((p :: rest).get ⟨i, Nat.lt_of_succ_lt hi⟩, rest.get ⟨i, hilt⟩) := by
        simp [List.get_eq_getElem, List.getElem_zip]
      refine List.mem_map.mpr ⟨((p :: rest).get ⟨i, Nat.lt_of_succ_lt hi⟩, rest.get ⟨i, hilt⟩),
        List.mem_filter.mpr ⟨?_, ?_⟩, rfl⟩
      · rw [← hzget]
        exact List.get_mem _ _ _
      · exact hok

/-- The rejection condition of the tick-calibration core: `null` exactly
when fewer than 3 ticks were detected or fewer than 3 survive the
filter. -/
theorem detectTickMarksCore_none_iff (ps : List ℚ) :
    detectTickMarksCore ps = none ↔
      ps.length < 3 ∨ (filterTicks (median (spacings ps)) ps).length < 3 := by
  simp only [detectTickMarksCore]
  split_ifs with h1 h2
  · simp [h1]
  · simp [h2]
  · simp [h1, h2]

/-- C1 (counterexample): on detected tick positions `[0, 15, 30, 37, 52]`
the median spacing is 15 and the code keeps `[0, 15, 30, 52]` (tick 37 is
dropped).  The claim says tick 52 is kept *iff* its spacing from the last
kept tick deviates by less than 40% from the median — but that spacing is
`52 − 30 = 22`, deviating `7/15 ≈ 46.7% ≥ 40%` (`tickSpacingOK 15 30 52 =
false`), yet 52 is kept: the loop compares against the raw predecessor
37, not the last kept tick 30. -/
theorem tickFilter_lastKept_counterexample :
    detectTickMarksCore [0, 15, 30, 37, 52] =
      some { ticks := [Tick.mk 0 0, Tick.mk 15 10, Tick.mk 30 20, Tick.mk 52 30]
             scalePxPerMm := 3/2
             length := 30 } ∧
    median (spacings [0, 15, 30, 37, 52]) = 15 ∧
    tickSpacingOK 15 30 52 = false := by
  refine ⟨?_, ?_, ?_⟩
  · norm_num [detectTickMarksCore, median, spacings, absQ, sortQ, List.insertionSort,
      List.orderedInsert, filterTicks, tickSpacingOK, List.filter, List.enum, List.enumFrom]
  · norm_num [median, spacings, absQ, sortQ, List.insertionSort, List.orderedInsert]
  · norm_num [tickSpacingOK, absQ]

/-- C1 (amended): after the median of consecutive tick spacings is
computed, the first detected tick is always kept, and every subsequent
tick is kept if and only if its spacing from the immediately preceding
*detected* tick (the raw predecessor, whether or not that one was kept)
deviates by less than 40% from the median spacing; the candidate is
rejected (`null`) exactly when fewer than 3 ticks were detected or fewer
than 3 survive the filter. -/
theorem tickFilter_raw_predecessor (ps : List ℚ) :
    (detectTickMarksCore ps = none ↔
      ps.length < 3 ∨ (filterTicks (median (spacings ps)) ps).length < 3) ∧
    (∀ p rest, ps = p :: rest →
      (filterTicks (median (spacings ps)) ps).head? = some p) ∧
    (List.Chain' (· < ·) ps → ∀ i (hi : i + 1 < ps.length),
      (ps.get ⟨i + 1, hi⟩ ∈ filterTicks (median (spacings ps)) ps ↔
        tickSpacingOK (median (spacings ps)) (ps.get ⟨i, Nat.lt_of_succ_lt hi⟩)
          (ps.get ⟨i + 1, hi⟩) = true)) := by
  refine ⟨detectTickMarksCore_none_iff ps, ?_, ?_⟩
  · rintro p rest rfl
    rfl
  · intro hps i hi
    exact filterTicks_mem_iff _ ps hps i hi

/-- Witness for `tickFilter_raw_predecessor` at positions
`[0, 15, 30, 37, 52]`, tick index 4 (position 52, raw predecessor 37). -/
theorem tickFilter_raw_predecessor_witness :
    (([0, 15, 30, 37, 52] : List ℚ).get ⟨4, by norm_num⟩ ∈
      filterTicks (median (spacings [0, 15, 30, 37, 52])) [0, 15, 30, 37, 52]) ↔
    tickSpacingOK (median (spacings [0, 15, 30, 37, 52]))
      (([0, 15, 30, 37, 52] : List ℚ).get ⟨3, by norm_num⟩)
      (([0, 15, 30, 37, 52] : List ℚ).get ⟨4, by norm_num⟩) = true :=
  (tickFilter_raw_predecessor [0, 15, 30, 37, 52]).2.2
    (by norm_num [List.chain'_cons]) 3 (by norm_num)

/-- Sum of an affine map over a tick list. -/
theorem sum_map_add_mul (l : List CmTick) (a b : ℚ) (f : CmTick → ℚ) :
    (l.map fun t => a + b * f t).sum = a * l.length + b * (l.map f).sum := by
  induction l with
  | nil => simp
  | cons t ts ih =>
    simp only [List.map_cons, List.sum_cons, ih, List.length_cons]
    push_cast
    ring

/-- Sum of `f·(a + b·f)` over a tick list. -/
theorem sum_map_mul_affine (l : List CmTick) (a b : ℚ) (f : CmTick → ℚ) :
    (l.map fun t => f t * (a + b * f t)).sum =
      a * (l.map f).sum + b * (l.map fun t => f t * f t).sum := by
  induction l with
  | nil => simp
  | cons t ts ih =>
    simp only [List.map_cons, List.sum_cons, ih]
    ring

/-- When the observed tick pixel positions are exactly affine in their mm
values with nonzero slope (and nonnegative cm values and nonzero
regression denominator), every tick stored by `buildRulerFromTicks`
satisfies the round trip `px / scalePxPerMm = mm` exactly: the
least-squares slope recovers `b`, the intercept recovers `a`, and the
stored offsets are `|b|·mm`. -/
theorem buildRulerFromTicks_affine_roundtrip (a b : ℚ) (ts : List CmTick) (r : RulerQ)
    (hb : b ≠ 0)
    (hcm : ∀ t ∈ ts, 0 ≤ t.cm)
    (haff : ∀ t ∈ ts, t.pixelY = a + b * (t.cm * 10))
    (hden : regressionDenom ts ≠ 0)
    (hsome : buildRulerFromTicks ts = some r) :
    ∀ t ∈ r.ticks, t.px / r.scalePxPerMm = t.mm := by
  have hperm : List.Perm (ts.insertionSort cmLE) ts := List.perm_insertionSort cmLE ts
  set s := ts.insertionSort cmLE with hs
  have hsub : ∀ t ∈ s, t ∈ ts := fun t ht => hperm.subset ht
  have hcm_s : ∀ t ∈ s, 0 ≤ t.cm := fun t ht => hcm t (hsub t ht)
  have haff_s : ∀ t ∈ s, t.pixelY = a + b * (t.cm * 10) := fun t ht => haff t (hsub t ht)
  have hlen : s.length = ts.length := hperm.length_eq
  have hsum_mm : (s.map fun t => t.cm * 10).sum = (ts.map fun t => t.cm * 10).sum :=
    (hperm.map _).sum_eq
  have hsum_mm2 : (s.map fun t => t.cm * 10 * (t.cm * 10)).sum =
      (ts.map fun t => t.cm * 10 * (t.cm * 10)).sum :=
    (hperm.map _).sum_eq
  have hden_s : (s.length : ℚ) * (s.map fun t => t.cm * 10 * (t.cm * 10)).sum -
      (s.map fun t => t.cm * 10).sum * (s.map fun t => t.cm * 10).sum ≠ 0 := by
    rw [hsum_mm, hsum_mm2, hlen]
    exact hden
  simp only [buildRulerFromTicks, ← hs] at hsome
  split at hsome
  · exact absurd hsome (by simp)
  · rename_i hlen2
    have hn : (s.length : ℚ) ≠ 0 := by
      have : 2 ≤ s.length := not_lt.mp hlen2
      positivity
    obtain rfl := (Option.some.inj hsome).symm
    have hpx_sum : (s.map fun t => t.pixelY).sum =
        a * s.length + b * (s.map fun t => t.cm * 10).sum := by
      rw [List.map_congr_left haff_s, sum_map_add_mul]
    have hmmpx_sum : (s.map fun t => t.cm * 10 * t.pixelY).sum =
        a * (s.map fun t => t.cm * 10).sum +
          b * (s.map fun t => t.cm * 10 * (t.cm * 10)).sum := by
      have : (s.map fun t => t.cm * 10 * t.pixelY) =
          s.map fun t => t.cm * 10 * (a + b * (t.cm * 10)) :=
        List.map_congr_left fun t ht => by rw [haff_s t ht]
      rw [this, sum_map_mul_affine]
    set n : ℚ := (s.length : ℚ) with hn_def
    set M : ℚ := (s.map fun t => t.cm * 10).sum with hM
    set M2 : ℚ := (s.map fun t => t.cm * 10 * (t.cm * 10)).sum with hM2
    have hslope : (n * (s.map fun t => t.cm * 10 * t.pixelY).sum -
        M * (s.map fun t => t.pixelY).sum) / (n * M2 - M * M) = b := by
      rw [hmmpx_sum, hpx_sum]
      have hnum : n * (a * M + b * M2) - M * (a * n + b * M) = b * (n * M2 - M * M) := by
        ring
      rw [hnum, mul_div_assoc, div_self hden_s, mul_one]
    rw [hslope]
    have hicept : ((s.map fun t => t.pixelY).sum - b * M) / n = a := by
      rw [hpx_sum]
      have : a * n + b * M - b * M = a * n := by ring
      rw [this, mul_div_assoc, div_self hn, mul_one]
    rw [hicept]
    intro t ht
    obtain ⟨u, hu, rfl⟩ := List.mem_map.mp ht
    have hupx : u.pixelY = a + b * (u.cm * 10) := haff_s u hu
    have hcmu : 0 ≤ u.cm := hcm_s u hu
    simp only [hupx]
    have h1 : a + b * (u.cm * 10) - a = b * (u.cm * 10) := by ring
    rw [h1, absQ_eq_abs, absQ_eq_abs, abs_mul]
    have h2 : |u.cm * 10| = u.cm * 10 := abs_of_nonneg (by positivity)
    rw [h2]
    exact mul_div_cancel_left₀ _ (abs_ne_zero.mpr hb)

/-- C2 (counterexample): on tick positions `[100, 115, 130]` the
tick-calibration ruler stores its first tick as `{px: 100, mm: 0}` with
`scalePxPerMm = 1.5` — `px` is the tick's absolute image coordinate, so
`px / scalePxPerMm = 200/3 ≈ 66.7 mm ≠ 0 mm`, failing the round trip far
beyond any floating-point tolerance. -/
theorem ruler_tick_roundtrip_counterexample :
    detectTickMarksCore [100, 115, 130] =
      some { ticks := [Tick.mk 100 0, Tick.mk 115 10, Tick.mk 130 20]
             scalePxPerMm := 3/2
             length := 20 } ∧
    (100 : ℚ) / (3/2) = 200/3 ∧
    ¬ absQ ((200 : ℚ)/3 - 0) < 1 := by
  refine ⟨?_, by norm_num, by norm_num [absQ]⟩
  norm_num [detectTickMarksCore, median, spacings, absQ, sortQ, List.insertionSort,
    List.orderedInsert, filterTicks, tickSpacingOK, List.filter, List.enum, List.enumFrom]

/-- C2 (amended): the round trip `px / scalePxPerMm = mm` holds exactly
for every tick of the two-point fallback ruler (nonzero length), for
every synthetic tick of the old-schema `transformRuler` (nonzero
distance and length), and for every tick ingested by
`buildRulerFromTicks` when the observed pixel positions are exactly
affine in the tick values; it fails for tick-calibration rulers, whose
stored `px` is an absolute image coordinate. -/
theorem ruler_tick_roundtrip_amended :
    (∀ lengthPx : ℚ, lengthPx ≠ 0 →
      ∀ t ∈ (fallbackRuler lengthPx).ticks,
        t.px / (fallbackRuler lengthPx).scalePxPerMm = t.mm) ∧
    (∀ distPx lengthCm : ℚ, distPx ≠ 0 → lengthCm ≠ 0 →
      ∀ t ∈ (transformRuler distPx lengthCm).ticks,
        t.px / (transformRuler distPx lengthCm).scalePxPerMm = t.mm) ∧
    (∀ (a b : ℚ) (ts : List CmTick) (r : RulerQ), b ≠ 0 →
      (∀ t ∈ ts, 0 ≤ t.cm) →
      (∀ t ∈ ts, t.pixelY = a + b * (t.cm * 10)) →
      regressionDenom ts ≠ 0 →
      buildRulerFromTicks ts = some r →
      ∀ t ∈ r.ticks, t.px / r.scalePxPerMm = t.mm) := by
  refine ⟨?_, ?_, buildRulerFromTicks_affine_roundtrip⟩
  · intro L hL t ht
    simp only [fallbackRuler, List.mem_cons, List.not_mem_nil, or_false] at ht
    rcases ht with rfl | rfl
    · simp
    · simp only [fallbackRuler]
      field_simp
  · intro d c hd hc t ht
    simp only [transformRuler, List.mem_map] at ht
    obtain ⟨i, hi, rfl⟩ := ht
    simp only [transformRuler]
    have hc10 : c * 10 ≠ 0 := mul_ne_zero hc (by norm_num)
    field_simp

/-- Witness for `ruler_tick_roundtrip_amended`: the far tick of a
two-point fallback ruler of 400 px. -/
theorem ruler_tick_roundtrip_witness :
    (Tick.mk 400 400).px / (fallbackRuler 400).scalePxPerMm = (Tick.mk 400 400).mm :=
  ruler_tick_roundtrip_amended.1 400 (by norm_num) (Tick.mk 400 400)
    (by simp [fallbackRuler])


/-- C8: for a contour that survived the area and aspect-ratio filters,
the object is discarded iff `|bottomY - BaseLine.pixelY|` exceeds the
base-line tolerance or the height `(BaseLine.pixelY - topY) / scale`
is below 10 mm; a surviving object carries exactly
`heightPx = BaseLine.pixelY - topY` and `heightMm = heightPx / scale`
with the matching category and box fields. -/
theorem processContour_spec (params : JigParams) (baseLineY scalePxPerMm shortMax mediumMax : ℚ)
    (c : ContourData)
    (harea : params.minContourArea ≤ c.area)
    (haspect : params.minAspectRatio ≤
      max c.rect.sizeW c.rect.sizeH / min c.rect.sizeW c.rect.sizeH) :
    (processContour params baseLineY scalePxPerMm shortMax mediumMax c = none ↔
      params.baseLineTolerance < absQ (maxListQ (c.vertices.map Pt.y) - baseLineY) ∨
        (baseLineY - minListQ (c.vertices.map Pt.y)) / scalePxPerMm < 10) ∧
    (∀ o, processContour params baseLineY scalePxPerMm shortMax mediumMax c = some o →
      o.heightPx = baseLineY - minListQ (c.vertices.map Pt.y) ∧
      o.heightMm = (baseLineY - minListQ (c.vertices.map Pt.y)) / scalePxPerMm ∧
      o.category = categorize shortMax mediumMax o.heightMm ∧
      o.bottomY = maxListQ (c.vertices.map Pt.y) ∧
      o.topY = minListQ (c.vertices.map Pt.y) ∧
      o.centerX = c.rect.center.x) := by
  simp only [processContour, if_neg (not_lt.mpr harea), if_neg (not_lt.mpr haspect)]
  split_ifs with h3 h4
  · exact ⟨iff_of_true rfl (Or.inl h3), fun o ho => by simp at ho⟩
  · exact ⟨iff_of_true rfl (Or.inr h4), fun o ho => by simp at ho⟩
  · refine ⟨iff_of_false (by simp) ?_, fun o ho => ?_⟩
    · rintro (h | h)
      · exact h3 h
      · exact h4 h
    · obtain rfl := (Option.some.inj ho).symm
      exact ⟨rfl, rfl, rfl, rfl, rfl, rfl⟩

/-- Witness for `processContour_spec`: a 10×100 contour bottoming 5 px
from the base line at 500 with scale 2 px/mm. -/
theorem processContour_spec_witness :
    processContour (JigParams.mk 100 2 20) 500 2 200 300
        (ContourData.mk 500 (RectQ.mk (Pt.mk 50 300) 10 100 0)
          [Pt.mk 45 100, Pt.mk 55 100, Pt.mk 55 495, Pt.mk 45 495]) = none ↔
      (20 : ℚ) < absQ (maxListQ ([Pt.mk 45 100, Pt.mk 55 100, Pt.mk 55 495,
          Pt.mk 45 495].map Pt.y) - 500) ∨
        ((500 : ℚ) - minListQ ([Pt.mk 45 100, Pt.mk 55 100, Pt.mk 55 495,
          Pt.mk 45 495].map Pt.y)) / 2 < 10 :=
  (processContour_spec (JigParams.mk 100 2 20) 500 2 200 300
    (ContourData.mk 500 (RectQ.mk (Pt.mk 50 300) 10 100 0)
      [Pt.mk 45 100, Pt.mk 55 100, Pt.mk 55 495, Pt.mk 45 495])
    (by norm_num) (by norm_num [max_def, min_def])).1



/-- Case analysis of one `findLocalMinima` iteration: the accumulator is
unchanged, or index `i` is appended and the strict-minimum, prominence
and spacing guards all held. -/
theorem lmStep_eq_or (values : List ℚ) (d : ℕ) (prom : ℚ) (acc : List ℕ) (i : ℕ) :
    lmStep values d prom acc i = acc ∨
      (lmStep values d prom acc i = acc ++ [i] ∧
        values.getD i 0 < values.getD (i - 1) 0 ∧
        values.getD i 0 < values.getD (i + 1) 0 ∧
        prom ≤ prominenceAt values d i ∧
        (acc.getLast? = none ∨ ∃ last, acc.getLast? = some last ∧ d ≤ i - last)) := by
  have hstep : lmStep values d prom acc i =
      if values.getD i 0 < values.getD (i - 1) 0 ∧ values.getD i 0 < values.getD (i + 1) 0 then
        if prom ≤ prominenceAt values d i then
          match acc.getLast? with
          | none => acc ++ [i]
          | some last => if d ≤ i - last then acc ++ [i] else acc
        else acc
      else acc := rfl
  by_cases h1 : values.getD i 0 < values.getD (i - 1) 0 ∧ values.getD i 0 < values.getD (i + 1) 0
  · by_cases h2 : prom ≤ prominenceAt values d i
    · rw [if_pos h1, if_pos h2] at hstep
      cases hl : acc.getLast? with
      | none =>
        simp only [hl] at hstep
        exact Or.inr ⟨hstep, h1.1, h1.2, h2, Or.inl rfl⟩
      | some last =>
        simp only [hl] at hstep
        by_cases h3 : d ≤ i - last
        · rw [if_pos h3] at hstep
          exact Or.inr ⟨hstep, h1.1, h1.2, h2, Or.inr ⟨last, rfl, h3⟩⟩
        · rw [if_neg h3] at hstep
          exact Or.inl hstep
    · rw [if_pos h1, if_neg h2] at hstep
      exact Or.inl hstep
  · rw [if_neg h1] at hstep
    exact Or.inl hstep

/-- Invariant of the `findLocalMinima` fold: starting from an
accumulator of good, well-spaced indices all below the remaining
(ascending) loop indices, the final accumulator again contains only
strict interior minima of sufficient prominence, spaced at least
`minDistance` apart. -/
theorem lmFold_invariant (values : List ℚ) (d : ℕ) (prom : ℚ) :
    ∀ (is : List ℕ) (acc : List ℕ),
      (∀ i ∈ is, 1 ≤ i ∧ i + 1 < values.length) →
      List.Pairwise (· < ·) is →
      (∀ j ∈ acc, 1 ≤ j ∧ j + 1 < values.length ∧
        values.getD j 0 < values.getD (j - 1) 0 ∧
        values.getD j 0 < values.getD (j + 1) 0 ∧
        prom ≤ prominenceAt values d j) →
      List.Chain' (fun a b => a + d ≤ b) acc →
      (∀ j ∈ acc, ∀ i ∈ is, j < i) →
      (∀ j ∈ is.foldl (lmStep values d prom) acc, 1 ≤ j ∧ j + 1 < values.length ∧
        values.getD j 0 < values.getD (j - 1) 0 ∧
        values.getD j 0 < values.getD (j + 1) 0 ∧
        prom ≤ prominenceAt values d j) ∧
      List.Chain' (fun a b => a + d ≤ b) (is.foldl (lmStep values d prom) acc) := by
  intro is
  induction is with
  | nil => exact fun acc _ _ hgood hchain _ => ⟨hgood, hchain⟩
  | cons i is' ih =>
    intro acc hbounds hpw hgood hchain hless
    have hbi : 1 ≤ i ∧ i + 1 < values.length := hbounds i (List.mem_cons_self i is')
    have hbounds' : ∀ k ∈ is', 1 ≤ k ∧ k + 1 < values.length :=
      fun k hk => hbounds k (List.mem_cons_of_mem i hk)
    have hpw' : List.Pairwise (· < ·) is' := (List.pairwise_cons.mp hpw).2
    have hilt : ∀ k ∈ is', i < k := (List.pairwise_cons.mp hpw).1
    rw [List.foldl_cons]
    rcases lmStep_eq_or values d prom acc i with heq | ⟨heq, hv1, hv2, hp, hlast⟩
    · rw [heq]
      exact ih acc hbounds' hpw' hgood hchain
        (fun j hj k hk => hless j hj k (List.mem_cons_of_mem i hk))
    · rw [heq]
      refine ih (acc ++ [i]) hbounds' hpw' ?_ ?_ ?_
      · intro j hj
        rcases List.mem_append.mp hj with hj | hj
        · exact hgood j hj
        · rw [List.mem_singleton.mp hj]
          exact ⟨hbi.1, hbi.2, hv1, hv2, hp⟩
      · rw [List.chain'_append]
        refine ⟨hchain, List.chain'_singleton i, ?_⟩
        intro x hx y hy
        rw [List.head?_cons, Option.mem_some_iff] at hy
        subst hy
        rcases hlast with hnone | ⟨last, hsome, hd⟩
        · rw [hnone] at hx
          exact absurd hx (by simp)
        · rw [hsome, Option.mem_some_iff] at hx
          subst hx
          have hxa : last ∈ acc := List.mem_of_getLast?_eq_some hsome
          have : last < i := hless last hxa i (List.mem_cons_self i is')
          omega
      · intro j hj k hk
        rcases List.mem_append.mp hj with hj | hj
        · exact hless j hj k (List.mem_cons_of_mem i hk)
        · rw [List.mem_singleton.mp hj]
          exact hilt k hk

/-- `range' s n` (step 1) is strictly increasing. -/
theorem pairwise_lt_range'_one : ∀ (n s : ℕ), List.Pairwise (· < ·) (List.range' s n)
  | 0, s => by simp
  | n + 1, s => by
    rw [List.range'_succ]
    refine List.pairwise_cons.mpr ⟨?_, pairwise_lt_range'_one n (s + 1)⟩
    intro k hk
    obtain ⟨i, hi, rfl⟩ := List.mem_range'.mp hk
    omega

/-- C6: every index returned by `findLocalMinima` is strictly interior
with a value strictly below both neighbors and prominence (computed over
the clamped ±`minDistance` window) at least `minProminence`, and the
returned indices are spaced at least `minDistance` apart (greedy
left-to-right acceptance). -/
theorem findLocalMinima_spec (values : List ℚ) (d : ℕ) (prom : ℚ) :
    (∀ i ∈ findLocalMinima values d prom,
      1 ≤ i ∧ i + 1 < values.length ∧
      values.getD i 0 < values.getD (i - 1) 0 ∧
      values.getD i 0 < values.getD (i + 1) 0 ∧
      prom ≤ prominenceAt values d i) ∧
    List.Chain' (fun a b => a + d ≤ b) (findLocalMinima values d prom) := by
  unfold findLocalMinima
  have hmem : ∀ i ∈ List.range' 1 (values.length - 2), 1 ≤ i ∧ i + 1 < values.length := by
    intro i hi
    obtain ⟨j, hj, rfl⟩ := List.mem_range'.mp hi
    omega
  exact lmFold_invariant values d prom _ [] hmem
    (pairwise_lt_range'_one _ 1) (by simp) (by simp) (by simp)

/-- Witness for `findLocalMinima_spec` on the profile
`[30, 0, 30, 40, 0, 40]` with `minDistance 2`, `minProminence 10`
(returned minima `[1, 4]`), at index 4. -/
theorem findLocalMinima_spec_witness :
    1 ≤ 4 ∧ 4 + 1 < ([30, 0, 30, 40, 0, 40] : List ℚ).length ∧
    ([30, 0, 30, 40, 0, 40] : List ℚ).getD 4 0 < ([30, 0, 30, 40, 0, 40] : List ℚ).getD 3 0 ∧
    ([30, 0, 30, 40, 0, 40] : List ℚ).getD 4 0 < ([30, 0, 30, 40, 0, 40] : List ℚ).getD 5 0 ∧
    (10 : ℚ) ≤ prominenceAt [30, 0, 30, 40, 0, 40] 2 4 :=
  (findLocalMinima_spec [30, 0, 30, 40, 0, 40] 2 10).1 4
    (by norm_num [findLocalMinima, lmStep, prominenceAt, leftWindowMax, rightWindowMax,
      List.range'])



instance : IsTotal DrillObj centerLE := ⟨fun a b => le_total a.centerX b.centerX⟩

instance : IsTrans DrillObj centerLE := ⟨fun _ _ _ => le_trans⟩

instance : IsTotal RawDrill rawLE := ⟨fun a b => le_total a.centerX b.centerX⟩

instance : IsTrans RawDrill rawLE := ⟨fun _ _ _ => le_trans⟩

/-- `assignIds` preserves the list length. -/
theorem assignIds_length (k : ℕ) (l : List DrillObj) : (assignIds k l).length = l.length := by
  induction l generalizing k with
  | nil => rfl
  | cons d ds ih => simp [assignIds, ih]

/-- The ids written by `assignIds k` are exactly `k, k+1, …`. -/
theorem assignIds_map_id (k : ℕ) (l : List DrillObj) :
    (assignIds k l).map (fun o => o.id) = List.range' k l.length := by
  induction l generalizing k with
  | nil => rfl
  | cons d ds ih => simp [assignIds, List.range'_succ, ih]

/-- `assignIds` leaves every `centerX` unchanged. -/
theorem assignIds_map_centerX (k : ℕ) (l : List DrillObj) :
    (assignIds k l).map (fun o => o.centerX) = l.map (fun o => o.centerX) := by
  induction l generalizing k with
  | nil => rfl
  | cons d ds ih => simp [assignIds, ih]

/-- Sorting permutation-equal object lists by `centerX` yields the same
key sequence. -/
theorem insertionSort_map_centerX_eq (l₁ l₂ : List DrillObj) (hp : List.Perm l₁ l₂) :
    (l₁.insertionSort centerLE).map (fun o => o.centerX) =
      (l₂.insertionSort centerLE).map (fun o => o.centerX) := by
  apply List.eq_of_perm_of_sorted (r := (· ≤ ·))
  · exact ((List.perm_insertionSort centerLE l₁).map _).trans
      ((hp.map _).trans ((List.perm_insertionSort centerLE l₂).map _).symm)
  · exact List.pairwise_map.mpr (List.sorted_insertionSort centerLE l₁)
  · exact List.pairwise_map.mpr (List.sorted_insertionSort centerLE l₂)

/-- Sorting permutation-equal raw payload lists by `centerX` yields the
same key sequence. -/
theorem insertionSortRaw_map_centerX_eq (l₁ l₂ : List RawDrill) (hp : List.Perm l₁ l₂) :
    (l₁.insertionSort rawLE).map (fun d => d.centerX) =
      (l₂.insertionSort rawLE).map (fun d => d.centerX) := by
  apply List.eq_of_perm_of_sorted (r := (· ≤ ·))
  · exact ((List.perm_insertionSort rawLE l₁).map _).trans
      ((hp.map _).trans ((List.perm_insertionSort rawLE l₂).map _).symm)
  · exact List.pairwise_map.mpr (List.sorted_insertionSort rawLE l₁)
  · exact List.pairwise_map.mpr (List.sorted_insertionSort rawLE l₂)

/-- C5: after a local `detectDrillsJig` pass and after external-payload
ingestion in `parseGeminiResponse`, the surviving objects carry ids that
are exactly the contiguous sequence `1..N`, assigned in ascending
`centerX` order, and the resulting `centerX` sequence is independent of
the order in which the input contours (or payload entries) were
supplied. -/
theorem drill_ids_sequential :
    (∀ (params : JigParams) (baseLineY scalePxPerMm shortMax mediumMax : ℚ)
        (contours : List ContourData),
      (detectDrillsCore params baseLineY scalePxPerMm shortMax mediumMax contours).map
          (fun o => o.id) =
        List.range' 1
          (detectDrillsCore params baseLineY scalePxPerMm shortMax mediumMax contours).length ∧
      List.Pairwise (· ≤ ·)
        ((detectDrillsCore params baseLineY scalePxPerMm shortMax mediumMax contours).map
          (fun o => o.centerX))) ∧
    (∀ (params : JigParams) (baseLineY scalePxPerMm shortMax mediumMax : ℚ)
        (contours contours' : List ContourData),
      List.Perm contours contours' →
      (detectDrillsCore params baseLineY scalePxPerMm shortMax mediumMax contours).map
          (fun o => o.centerX) =
        (detectDrillsCore params baseLineY scalePxPerMm shortMax mediumMax contours').map
          (fun o => o.centerX)) ∧
    (∀ (shortMax mediumMax : ℚ) (baseLineY : Option ℚ) (drills : List RawDrill),
      (parseDrills shortMax mediumMax baseLineY drills).map (fun o => o.id) =
        List.range' 1 (parseDrills shortMax mediumMax baseLineY drills).length ∧
      List.Pairwise (· ≤ ·)
        ((parseDrills shortMax mediumMax baseLineY drills).map (fun o => o.centerX))) ∧
    (∀ (shortMax mediumMax : ℚ) (baseLineY : Option ℚ) (drills drills' : List RawDrill),
      List.Perm drills drills' →
      (parseDrills shortMax mediumMax baseLineY drills).map (fun o => o.centerX) =
        (parseDrills shortMax mediumMax baseLineY drills').map (fun o => o.centerX)) := by
  refine ⟨?_, ?_, ?_, ?_⟩
  · intro params baseLineY scalePxPerMm shortMax mediumMax contours
    constructor
    · rw [detectDrillsCore, assignIds_map_id, assignIds_length]
    · rw [detectDrillsCore, assignIds_map_centerX]
      exact List.pairwise_map.mpr (List.sorted_insertionSort centerLE _)
  · intro params baseLineY scalePxPerMm shortMax mediumMax contours contours' hp
    rw [detectDrillsCore, detectDrillsCore, assignIds_map_centerX, assignIds_map_centerX]
    exact insertionSort_map_centerX_eq _ _
      (hp.filterMap (processContour params baseLineY scalePxPerMm shortMax mediumMax))
  · intro shortMax mediumMax baseLineY drills
    constructor
    · rw [parseDrills, assignIds_map_id, assignIds_length]
    · rw [parseDrills, assignIds_map_centerX, List.map_map]
      have : ((fun o => o.centerX) ∘ mkGeminiObj shortMax mediumMax baseLineY) =
          fun d => d.centerX := rfl
      rw [this]
      exact List.pairwise_map.mpr (List.sorted_insertionSort rawLE _)
  · intro shortMax mediumMax baseLineY drills drills' hp
    rw [parseDrills, parseDrills, assignIds_map_centerX, assignIds_map_centerX,
      List.map_map, List.map_map]
    have : ((fun o : DrillObj => o.centerX) ∘ mkGeminiObj shortMax mediumMax baseLineY) =
        fun d : RawDrill => d.centerX := rfl
    rw [this]
    exact insertionSortRaw_map_centerX_eq _ _ hp

/-- Witness for `drill_ids_sequential`: two contours supplied in both
orders produce the same `centerX` sequence. -/
theorem drill_ids_sequential_witness :
    (detectDrillsCore (JigParams.mk 100 2 20) 500 2 200 300
        [ContourData.mk 0 (RectQ.mk (Pt.mk 1 0) 1 1 0) [],
         ContourData.mk 0 (RectQ.mk (Pt.mk 2 0) 1 1 0) []]).map (fun o => o.centerX) =
      (detectDrillsCore (JigParams.mk 100 2 20) 500 2 200 300
        [ContourData.mk 0 (RectQ.mk (Pt.mk 2 0) 1 1 0) [],
         ContourData.mk 0 (RectQ.mk (Pt.mk 1 0) 1 1 0) []]).map (fun o => o.centerX) :=
  drill_ids_sequential.2.1 (JigParams.mk 100 2 20) 500 2 200 300 _ _
    (List.Perm.swap (ContourData.mk 0 (RectQ.mk (Pt.mk 2 0) 1 1 0) [])
      (ContourData.mk 0 (RectQ.mk (Pt.mk 1 0) 1 1 0) []) [])


set_option maxHeartbeats 4000000
set_option maxRecDepth 4000

/-- Concrete run of the solver: the unit square mapped to the
quadrilateral `(0,0), (2,0), (1,1), (0,1)` produces the projective
matrix `[[2,0,0],[0,2,0],[0,1,1]]` (determinant 4). -/
theorem computeHomography_example_eval :
    computeHomography [Pt.mk 0 0, Pt.mk 1 0, Pt.mk 1 1, Pt.mk 0 1]
      [Pt.mk 0 0, Pt.mk 2 0, Pt.mk 1 1, Pt.mk 0 1] =
    some (H3.mk 2 0 0 0 2 0 0 1 1) := by
  norm_num [computeHomography, solveLinearSystem, elimFrom, elimStep, pivotRowFor,
    swapRows, mapIdxFrom, entry, absQ, List.range', List.getD, List.zipWith,
    List.getElem?_cons_zero, List.getElem?_cons_succ]

/-- The exact round trip: for any matrix whose determinant magnitude
passes the `1e-12` guard and any point off the projective division's
zero line, `applyInverseHomography` undoes `applyHomography` exactly. -/
theorem applyInverse_applyForward (H : H3) (p : Pt)
    (hdet : ¬ absQ (detH H) < 1 / 10 ^ 12) (hrho : rhoOf H p ≠ 0) :
    applyInverseHomography H (applyHomography H p) = some p := by
  have hdet0 : detH H ≠ 0 := by
    intro h0
    apply hdet
    rw [h0]
    norm_num [absQ]
  simp only [applyInverseHomography]
  rw [if_neg hdet]
  congr 1
  obtain ⟨x, y⟩ := p
  obtain ⟨m00, m01, m02, m10, m11, m12, m20, m21, m22⟩ := H
  simp only [detH, rhoOf] at hdet0 hrho
  simp only [applyHomography, invH3, detH, Pt.mk.injEq]
  have hrho2 : (m10 * m21 - m11 * m20) /
          (m00 * (m11 * m22 - m12 * m21) - m01 * (m10 * m22 - m12 * m20) +
            m02 * (m10 * m21 - m11 * m20)) *
          ((m00 * x + m01 * y + m02) / (m20 * x + m21 * y + m22)) +
        (m01 * m20 - m00 * m21) /
          (m00 * (m11 * m22 - m12 * m21) - m01 * (m10 * m22 - m12 * m20) +
            m02 * (m10 * m21 - m11 * m20)) *
          ((m10 * x + m11 * y + m12) / (m20 * x + m21 * y + m22)) +
        (m00 * m11 - m01 * m10) /
          (m00 * (m11 * m22 - m12 * m21) - m01 * (m10 * m22 - m12 * m20) +
            m02 * (m10 * m21 - m11 * m20)) =
      1 / (m20 * x + m21 * y + m22) := by
    field_simp
    ring
  rw [hrho2]
  constructor
  · rw [div_div_eq_mul_div, div_one]
    field_simp
    ring
  · rw [div_div_eq_mul_div, div_one]
    field_simp
    ring

/-- C7 (counterexample): the quadrilateral correspondence above is
non-degenerate (no three corners collinear, determinant 4), yet at
`p = (0, -1)` the projective denominator `rho = h6·x + h7·y + 1` is zero
and the round trip returns `(0, 0) ≠ p`.  (In the JavaScript source the
forward map divides by zero at such a point and yields non-finite
coordinates, likewise failing to return `p`; the embedding's division
convention `q/0 = 0` makes the failure explicit.)  So the round trip
does not hold for *any* point `p`. -/
theorem homography_roundtrip_counterexample :
    computeHomography [Pt.mk 0 0, Pt.mk 1 0, Pt.mk 1 1, Pt.mk 0 1]
        [Pt.mk 0 0, Pt.mk 2 0, Pt.mk 1 1, Pt.mk 0 1] = some (H3.mk 2 0 0 0 2 0 0 1 1) ∧
    rhoOf (H3.mk 2 0 0 0 2 0 0 1 1) (Pt.mk 0 (-1)) = 0 ∧
    applyInverseHomography (H3.mk 2 0 0 0 2 0 0 1 1)
      (applyHomography (H3.mk 2 0 0 0 2 0 0 1 1) (Pt.mk 0 (-1))) = some (Pt.mk 0 0) ∧
    Pt.mk 0 0 ≠ Pt.mk 0 (-1) := by
  refine ⟨computeHomography_example_eval, by norm_num [rhoOf], ?_, by simp [Pt.mk.injEq]⟩
  norm_num [applyInverseHomography, applyHomography, invH3, detH, absQ]

/-- C7 (amended): for any 4-point correspondence for which
`computeHomography` returns a matrix `H` (whose bottom-right entry is
always 1), and any point `p` at which the projective denominator
`rho(H, p)` is nonzero, if `|det H|` passes the `1e-12` guard then
`applyInverseHomography(H, applyHomography(H, p))` returns exactly `p`
(hence within `1e-6`); and `applyInverseHomography` returns `null`
whenever `|det H| < 1e-12`. -/
theorem computeHomography_roundtrip (src dst : List Pt) (H : H3) (p q : Pt)
    (hH : computeHomography src dst = some H) :
    H.m22 = 1 ∧
    (¬ absQ (detH H) < 1 / 10 ^ 12 → rhoOf H p ≠ 0 →
      applyInverseHomography H (applyHomography H p) = some p) ∧
    (absQ (detH H) < 1 / 10 ^ 12 → applyInverseHomography H q = none) := by
  refine ⟨?_, fun h1 h2 => applyInverse_applyForward H p h1 h2, fun h1 => ?_⟩
  · simp only [computeHomography] at hH
    split at hH
    · split at hH
      · exact absurd hH (by simp)
      · rw [← Option.some.inj hH]
    · exact absurd hH (by simp)
  · simp only [applyInverseHomography]
    rw [if_pos h1]

/-- Witness for `computeHomography_roundtrip`: the computed example
matrix round-trips the point `(5, 7)`. -/
theorem computeHomography_roundtrip_witness :
    applyInverseHomography (H3.mk 2 0 0 0 2 0 0 1 1)
      (applyHomography (H3.mk 2 0 0 0 2 0 0 1 1) (Pt.mk 5 7)) = some (Pt.mk 5 7) :=
  (computeHomography_roundtrip [Pt.mk 0 0, Pt.mk 1 0, Pt.mk 1 1, Pt.mk 0 1]
    [Pt.mk 0 0, Pt.mk 2 0, Pt.mk 1 1, Pt.mk 0 1] (H3.mk 2 0 0 0 2 0 0 1 1)
    (Pt.mk 5 7) (Pt.mk 0 0) computeHomography_example_eval).2.1
    (by norm_num [absQ, detH]) (by norm_num [rhoOf])


end PhotoScaler
